import Mathlib

/-!
Verification of the MUPOL MPC solver (`mupol/mpc`) against its specification.

The secure-computation substrate (MPyC) is modelled over revealed values:
a secret-shared integer is represented by the integer it reveals to, and the
MPyC primitives `mpc.eq`, `mpc.ge`, `mpc.if_else`, `mpc.in_prod` are given
their documented plaintext semantics.  All solver functions are translated
from `src/mupol/mpc` over this model.
-/

namespace Mupol

/-- Semantics of `mpc.eq`: 1 if the two revealed values are equal, else 0. -/
def mpc_eq (a b : Int) : Int := if a = b then 1 else 0

/-- Semantics of `mpc.ge`: 1 if `a ≥ b` on revealed values, else 0. -/
def mpc_ge (a b : Int) : Int := if b ≤ a then 1 else 0

/-- Semantics of `mpc.if_else c a b` (oblivious select): `c*(a-b)+b`,
which equals `a` when `c = 1` and `b` when `c = 0`. -/
def mpc_if_else (c a b : Int) : Int := c * (a - b) + b

/-- Semantics of `mpc.in_prod`: dot product of two vectors. -/
def in_prod (xs ys : List Int) : Int := (List.zipWith (· * ·) xs ys).sum

/-- `real_or` from `mupol/mpc/utils/mpyc_vector_functions.py`:
`1 - ((1 - a) * (1 - b))`. -/
def real_or (a b : Int) : Int := 1 - ((1 - a) * (1 - b))

/-- `compute_indicator_vector` from `mpyc_vector_functions.py`: start from a
vector of `length` zeros and, for each plaintext position `j`, obliviously
select 1 exactly when `j` equals the secret index. -/
def compute_indicator_vector (length : Nat) (index : Int) : List Int :=
  (List.range length).map fun (j : Nat) => mpc_if_else (mpc_eq (j : Int) index) 1 0

/-- Tail recursion of `find_first_non_zero`: scan the list keeping the secret
`already_set` flag, emitting `x * (1 - already_set)` at each position. -/
def find_first_non_zero_aux (already_set : Int) : List Int → List Int
  | [] => []
  | x :: xs => x * (1 - already_set) :: find_first_non_zero_aux (real_or already_set x) xs

/-- `find_first_non_zero` from `mpyc_vector_functions.py`: left-to-right
oblivious scan starting with `already_set = 0`. -/
def find_first_non_zero (secret_list : List Int) : List Int :=
  find_first_non_zero_aux 0 secret_list

/-! Basic facts about the 0/1 ("bit") discipline of the primitives. -/

theorem mpc_eq_bit (a b : Int) : mpc_eq a b = 0 ∨ mpc_eq a b = 1 := by
  unfold mpc_eq; split <;> simp

theorem mpc_ge_bit (a b : Int) : mpc_ge a b = 0 ∨ mpc_ge a b = 1 := by
  unfold mpc_ge; split <;> simp

theorem real_or_bit {a b : Int} (ha : a = 0 ∨ a = 1) (hb : b = 0 ∨ b = 1) :
    real_or a b = 0 ∨ real_or a b = 1 := by
  rcases ha with h | h <;> rcases hb with h2 | h2 <;> subst h <;> subst h2 <;>
    simp [real_or]

theorem bit_mul {a b : Int} (ha : a = 0 ∨ a = 1) (hb : b = 0 ∨ b = 1) :
    a * b = 0 ∨ a * b = 1 := by
  rcases ha with h | h <;> rcases hb with h2 | h2 <;> subst h <;> subst h2 <;> simp

theorem bit_mul_eq_one {a b : Int} (ha : a = 0 ∨ a = 1) (h : a * b = 1) :
    a = 1 ∧ b = 1 := by
  rcases ha with h0 | h1
  · subst h0; simp at h
  · subst h1; simp at h; exact ⟨rfl, h⟩

theorem real_or_zero_left (b : Int) : real_or 0 b = b := by unfold real_or; ring

theorem real_or_one_left (b : Int) : real_or 1 b = 1 := by unfold real_or; ring

theorem real_or_one_right (a : Int) : real_or a 1 = 1 := by unfold real_or; ring

theorem mpc_if_else_zero (a b : Int) : mpc_if_else 0 a b = b := by
  unfold mpc_if_else; ring

theorem mpc_if_else_one (a b : Int) : mpc_if_else 1 a b = a := by
  unfold mpc_if_else; ring

/-- Claim C4: for every 0/1 pair `(a, b)`, `real_or a b = 1 - (1-a)*(1-b)`
reveals to 1 iff at least one input reveals to 1, reveals to 0 exactly when
both reveal to 0, and the result is always in {0, 1}. -/
theorem real_or_spec (a b : Int) (ha : a = 0 ∨ a = 1) (hb : b = 0 ∨ b = 1) :
    (real_or a b = 1 ↔ (a = 1 ∨ b = 1)) ∧
    (real_or a b = 0 ↔ (a = 0 ∧ b = 0)) ∧
    (real_or a b = 0 ∨ real_or a b = 1) := by
  rcases ha with h | h <;> rcases hb with h2 | h2 <;> subst h <;> subst h2 <;>
    refine ⟨by simp [real_or], by simp [real_or], by simp [real_or]⟩

theorem real_or_spec_witness :
    (real_or 0 1 = 1 ↔ ((0 : Int) = 1 ∨ (1 : Int) = 1)) ∧
    (real_or 0 1 = 0 ↔ ((0 : Int) = 0 ∧ (1 : Int) = 0)) ∧
    (real_or 0 1 = 0 ∨ real_or 0 1 = 1) :=
  real_or_spec 0 1 (Or.inl rfl) (Or.inr rfl)

/-- Each entry of the indicator vector is the plain indicator of its index. -/
theorem compute_indicator_vector_getD (length : Nat) (index : Int)
    (j : Nat) (hj : j < length) :
    (compute_indicator_vector length index).getD j 0 =
      if (j : Int) = index then 1 else 0 := by
  unfold compute_indicator_vector
  rw [List.getD_eq_getElem?_getD, List.getElem?_map, List.getElem?_range hj]
  by_cases h : (j : Int) = index <;>
    simp [h, mpc_eq, mpc_if_else]

theorem compute_indicator_vector_length (length : Nat) (index : Int) :
    (compute_indicator_vector length index).length = length := by
  unfold compute_indicator_vector
  rw [List.length_map, List.length_range]

/-- Claim C6: for `length ≥ 1` and a secret index revealing to a value in
`[0, length-1]`, `compute_indicator_vector` returns a vector of `length`
entries that reveals to all zeros except a single 1 at the index position. -/
theorem compute_indicator_vector_spec (length : Nat) (index : Int)
    (hlen : 1 ≤ length) (h0 : 0 ≤ index) (h1 : index ≤ (length : Int) - 1) :
    (compute_indicator_vector length index).length = length ∧
    (compute_indicator_vector length index).getD index.toNat 0 = 1 ∧
    (∀ j < length, (j : Int) ≠ index →
      (compute_indicator_vector length index).getD j 0 = 0) := by
  refine ⟨compute_indicator_vector_length length index, ?_, ?_⟩
  · have htn : (index.toNat : Int) = index := Int.toNat_of_nonneg h0
    have hlt : index.toNat < length := by omega
    rw [compute_indicator_vector_getD length index index.toNat hlt]
    simp [htn]
  · intro j hj hne
    rw [compute_indicator_vector_getD length index j hj]
    simp [hne]

theorem compute_indicator_vector_spec_witness :
    (compute_indicator_vector 5 2).length = 5 ∧
    (compute_indicator_vector 5 2).getD (Int.toNat 2) 0 = 1 ∧
    (compute_indicator_vector 5 2).getD 0 0 = 0 :=
  ⟨(compute_indicator_vector_spec 5 2 (by norm_num) (by norm_num) (by norm_num)).1,
   (compute_indicator_vector_spec 5 2 (by norm_num) (by norm_num) (by norm_num)).2.1,
   (compute_indicator_vector_spec 5 2 (by norm_num) (by norm_num)
     (by norm_num)).2.2 0 (by norm_num) (by norm_num)⟩

/-- Claim C10: for a secret index revealing to a value outside
`[0, length-1]`, `compute_indicator_vector` reveals to the all-zero vector. -/
theorem compute_indicator_vector_out_of_range (length : Nat) (index : Int)
    (h : index < 0 ∨ (length : Int) - 1 < index) :
    compute_indicator_vector length index = List.replicate length 0 := by
  unfold compute_indicator_vector
  rw [List.eq_replicate_iff]
  constructor
  · rw [List.length_map, List.length_range]
  · intro x hx
    rcases List.mem_map.mp hx with ⟨j, hj, rfl⟩
    have hjlt : j < length := List.mem_range.mp hj
    have hne : (j : Int) ≠ index := by
      rcases h with h | h <;> omega
    simp [mpc_eq, mpc_if_else, hne]

theorem compute_indicator_vector_out_of_range_witness :
    compute_indicator_vector 3 5 = List.replicate 3 0 :=
  compute_indicator_vector_out_of_range 3 5 (Or.inr (by norm_num))

/-! Characterisation of `find_first_non_zero`. -/

theorem find_first_non_zero_aux_length (a : Int) (v : List Int) :
    (find_first_non_zero_aux a v).length = v.length := by
  induction v generalizing a with
  | nil => rfl
  | cons x xs ih => simp [find_first_non_zero_aux, ih]

theorem find_first_non_zero_aux_one (v : List Int) :
    find_first_non_zero_aux 1 v = List.replicate v.length 0 := by
  induction v with
  | nil => rfl
  | cons x xs ih =>
      simp [find_first_non_zero_aux, real_or_one_left, ih, List.replicate_succ]

theorem getD_replicate_zero (n k : Nat) :
    (List.replicate n (0 : Int)).getD k 0 = 0 := by
  induction n generalizing k with
  | zero => rfl
  | succ m ih =>
      cases k with
      | zero => rfl
      | succ k' => simpa [List.replicate_succ] using ih k'

theorem find_first_non_zero_cons (x : Int) (xs : List Int) :
    find_first_non_zero (x :: xs) = x :: find_first_non_zero_aux x xs := by
  simp [find_first_non_zero, find_first_non_zero_aux, real_or_zero_left]

/-- Entry `k` of the output of `find_first_non_zero` is 1 exactly when `k` is
in range, the input entry at `k` is 1, and all earlier entries are 0. -/
theorem find_first_non_zero_getD (v : List Int) (hv : ∀ x ∈ v, x = 0 ∨ x = 1)
    (k : Nat) :
    (find_first_non_zero v).getD k 0 =
      if k < v.length ∧ v.getD k 0 = 1 ∧ (∀ j < k, v.getD j 0 = 0)
      then 1 else 0 := by
  induction v generalizing k with
  | nil => simp [find_first_non_zero, find_first_non_zero_aux]
  | cons x xs ih =>
      rw [find_first_non_zero_cons]
      rcases hv x (List.mem_cons_self x xs) with hx | hx
      · subst hx
        cases k with
        | zero => simp
        | succ k' =>
            have htail : ∀ y ∈ xs, y = 0 ∨ y = 1 := fun y hy =>
              hv y (List.mem_cons_of_mem _ hy)
            rw [List.getD_cons_succ]
            rw [show find_first_non_zero_aux 0 xs = find_first_non_zero xs from rfl]
            rw [ih htail k']
            apply if_congr _ rfl rfl
            constructor
            · rintro ⟨h1, h2, h3⟩
              refine ⟨by simp; omega, by rwa [List.getD_cons_succ], ?_⟩
              intro j hj
              cases j with
              | zero => exact List.getD_cons_zero
              | succ j' => rw [List.getD_cons_succ]; exact h3 j' (by omega)
            · rintro ⟨h1, h2, h3⟩
              refine ⟨by simp at h1; omega, by rwa [List.getD_cons_succ] at h2, ?_⟩
              intro j hj
              have := h3 (j + 1) (by omega)
              rwa [List.getD_cons_succ] at this
      · subst hx
        rw [find_first_non_zero_aux_one]
        cases k with
        | zero => simp
        | succ k' =>
            rw [List.getD_cons_succ, getD_replicate_zero]
            have hfalse : ¬ (k' + 1 < (1 :: xs).length ∧
                (1 :: xs).getD (k' + 1) 0 = 1 ∧
                ∀ j < k' + 1, (1 :: xs).getD j 0 = 0) := by
              rintro ⟨-, -, h3⟩
              have := h3 0 (by omega)
              rw [List.getD_cons_zero] at this
              norm_num at this
            rw [if_neg hfalse]

/-- Claim C5: for every 0/1 vector `v`, `find_first_non_zero v` has the same
length as `v`, reveals to a 0/1 vector with at most one entry equal to 1,
located at the lowest index whose input entry reveals to nonzero, and is
all-zero iff `v` is all-zero. -/
theorem find_first_non_zero_spec (v : List Int) (hv : ∀ x ∈ v, x = 0 ∨ x = 1) :
    (find_first_non_zero v).length = v.length ∧
    (∀ k : Nat, (find_first_non_zero v).getD k 0 = 1 ↔
        (k < v.length ∧ v.getD k 0 ≠ 0 ∧ ∀ j < k, v.getD j 0 = 0)) ∧
    (∀ k : Nat, (find_first_non_zero v).getD k 0 = 0 ∨
        (find_first_non_zero v).getD k 0 = 1) ∧
    (∀ k₁ k₂ : Nat, (find_first_non_zero v).getD k₁ 0 = 1 →
        (find_first_non_zero v).getD k₂ 0 = 1 → k₁ = k₂) ∧
    ((∀ x ∈ find_first_non_zero v, x = 0) ↔ (∀ x ∈ v, x = 0)) := by
  have hlen : (find_first_non_zero v).length = v.length :=
    find_first_non_zero_aux_length 0 v
  have hgetD : ∀ k < v.length, v.getD k 0 = 0 ∨ v.getD k 0 = 1 := by
    intro k hk
    rw [List.getD_eq_getElem v 0 hk]
    exact hv _ (List.getElem_mem hk)
  have hchar : ∀ k : Nat, (find_first_non_zero v).getD k 0 = 1 ↔
      (k < v.length ∧ v.getD k 0 ≠ 0 ∧ ∀ j < k, v.getD j 0 = 0) := by
    intro k
    rw [find_first_non_zero_getD v hv k]
    constructor
    · intro h
      split at h
      · rename_i hcond
        exact ⟨hcond.1, by rw [hcond.2.1]; norm_num, hcond.2.2⟩
      · norm_num at h
    · rintro ⟨h1, h2, h3⟩
      have hone : v.getD k 0 = 1 := by
        rcases hgetD k h1 with h | h
        · exact absurd h h2
        · exact h
      rw [if_pos ⟨h1, hone, h3⟩]
  refine ⟨hlen, hchar, ?_, ?_, ?_⟩
  · intro k
    rw [find_first_non_zero_getD v hv k]
    split <;> simp
  · intro k₁ k₂ h₁ h₂
    rcases (hchar k₁).mp h₁ with ⟨hk₁, hne₁, hall₁⟩
    rcases (hchar k₂).mp h₂ with ⟨hk₂, hne₂, hall₂⟩
    by_contra hne
    rcases Nat.lt_or_ge k₁ k₂ with h | h
    · exact hne₁ (hall₂ k₁ h)
    · have : k₂ < k₁ := by omega
      exact hne₂ (hall₁ k₂ this)
  · constructor
    · intro hall x hx
      by_contra hxne
      rcases List.mem_iff_getElem.mp hx with ⟨i, hi, rfl⟩
      have hone : v.getD i 0 = 1 := by
        rw [List.getD_eq_getElem v 0 hi]
        rcases hv _ (List.getElem_mem hi) with h | h
        · exact absurd h hxne
        · exact h
      have hex : ∃ n, v.getD n 0 = 1 := ⟨i, hone⟩
      set k₀ := Nat.find hex with hk₀
      have hspec : v.getD k₀ 0 = 1 := Nat.find_spec hex
      have hk₀lt : k₀ < v.length := by
        by_contra hge
        rw [List.getD_eq_default v 0 (by omega)] at hspec
        norm_num at hspec
      have hmin : ∀ j < k₀, v.getD j 0 = 0 := by
        intro j hj
        have := Nat.find_min hex hj
        rcases Nat.lt_or_ge j v.length with hjl | hjl
        · rcases hgetD j hjl with h | h
          · exact h
          · exact absurd h this
        · exact List.getD_eq_default v 0 (by omega)
      have hout : (find_first_non_zero v).getD k₀ 0 = 1 :=
        (hchar k₀).mpr ⟨hk₀lt, by rw [hspec]; norm_num, hmin⟩
      have hmem : (find_first_non_zero v).getD k₀ 0 ∈ find_first_non_zero v := by
        rw [List.getD_eq_getElem (find_first_non_zero v) 0 (by omega)]
        exact List.getElem_mem (by omega)
      have := hall _ hmem
      rw [hout] at this
      norm_num at this
    · intro hall x hx
      rcases List.mem_iff_getElem.mp hx with ⟨i, hi, rfl⟩
      have hi' : i < v.length := by omega
      have hzero : (find_first_non_zero v).getD i 0 = 0 := by
        rw [find_first_non_zero_getD v hv i]
        have hvi : v.getD i 0 = 0 := by
          rw [List.getD_eq_getElem v 0 hi']
          exact hall _ (List.getElem_mem hi')
        have hcond : ¬ (i < v.length ∧ v.getD i 0 = 1 ∧ ∀ j < i, v.getD j 0 = 0) := by
          rintro ⟨-, h2, -⟩
          rw [hvi] at h2
          norm_num at h2
        rw [if_neg hcond]
      rw [List.getD_eq_getElem (find_first_non_zero v) 0 hi] at hzero
      exact hzero

theorem find_first_non_zero_spec_witness :
    (find_first_non_zero [(1 : Int), 0, 1]).length = 3 ∧
    (find_first_non_zero [(1 : Int), 0, 1]).getD 0 0 = 1 :=
  ⟨(find_first_non_zero_spec [1, 0, 1] (by decide)).1,
   ((find_first_non_zero_spec [1, 0, 1] (by decide)).2.1 0).mpr (by decide)⟩

/-! The solver data model, from `mupol/plaintext` field usage and
`mupol/mpc/input_uploader.py`: each field stands for the revealed value of
the corresponding secret share. -/

/-- An order: `origin`, `destination`, `volume` uploaded by `upload_order`;
`processed`, `process_this_round`, `freighter_id` set by `initialize_order`. -/
structure Order where
  origin : Int
  destination : Int
  volume : Int
  processed : Int
  process_this_round : Int
  freighter_id : Int
deriving DecidableEq

/-- A truck: `capacity`, `position`, `freighter_id` uploaded by
`upload_truck`; `destination` set by `initialize_truck`; `dist_to_order` is
the scratch field written by `_find_truck_dist_to_order`. -/
structure Truck where
  capacity : Int
  position : Int
  destination : Int
  freighter_id : Int
  dist_to_order : Int
deriving DecidableEq

/-- `initialize_order` from `input_uploader.py`: `processed := 0`,
`process_this_round := 0`, `freighter_id := dummy_freighter_id`. -/
def initialize_order (order : Order) (dummy_freighter_id : Int) : Order :=
  { order with
      processed := 0
      process_this_round := 0
      freighter_id := dummy_freighter_id }

/-- The `compatible` product of `MPCSolver._fill_truck_with_order`:
`equal_positions * destinations_compatible * positive_capacity *
order_is_open`. -/
def fill_compatible (dummy_node : Int) (truck : Truck) (order : Order) : Int :=
  mpc_eq truck.position order.origin *
    real_or (mpc_eq truck.destination dummy_node)
      (mpc_eq truck.destination order.destination) *
    mpc_ge (truck.capacity - order.volume) 0 *
    (1 - order.processed)

/-- `MPCSolver._fill_truck_with_order`: oblivious-select updates of the truck
destination and capacity and the order flags and freighter id, all
conditioned on `compatible`. -/
def fill_truck_with_order (dummy_node : Int) (truck : Truck) (order : Order) :
    Truck × Order :=
  let compatible := fill_compatible dummy_node truck order
  ({ truck with
      destination := mpc_if_else compatible order.destination truck.destination
      capacity := truck.capacity - order.volume * compatible },
   { order with
      processed := real_or compatible order.processed
      process_this_round := real_or compatible order.process_this_round
      freighter_id := mpc_if_else compatible truck.freighter_id order.freighter_id })

/-- The inner order loop of `MPCSolver._fill_trucks`: run
`_fill_truck_with_order` for one truck against every order in order,
threading the truck state through the loop. -/
def fill_truck_orders (dummy_node : Int) (truck : Truck) :
    List Order → Truck × List Order
  | [] => (truck, [])
  | o :: os =>
      ((fill_truck_orders dummy_node
          (fill_truck_with_order dummy_node truck o).1 os).1,
       (fill_truck_with_order dummy_node truck o).2 ::
         (fill_truck_orders dummy_node
           (fill_truck_with_order dummy_node truck o).1 os).2)

/-- The per-truck epilogue of `MPCSolver._fill_trucks`: reset `capacity` to
the configured maximum, advance `position` to `destination` unless the
destination is still the dummy node, then reset `destination` to the dummy
node. -/
def finish_truck (dummy_node truck_capacity : Int) (truck : Truck) : Truck :=
  { truck with
      capacity := truck_capacity
      position := mpc_if_else (1 - mpc_eq truck.destination dummy_node)
        truck.destination truck.position
      destination := dummy_node }

/-- `MPCSolver._fill_trucks`: one complete fill round over every truck. -/
def fill_trucks (dummy_node truck_capacity : Int) :
    List Truck → List Order → List Truck × List Order
  | [], orders => ([], orders)
  | t :: ts, orders =>
      (finish_truck dummy_node truck_capacity
          (fill_truck_orders dummy_node t orders).1 ::
        (fill_trucks dummy_node truck_capacity ts
          (fill_truck_orders dummy_node t orders).2).1,
       (fill_trucks dummy_node truck_capacity ts
         (fill_truck_orders dummy_node t orders).2).2)

/-! Key case split on the `compatible` flag. -/

theorem fill_compatible_bit (dummy_node : Int) (truck : Truck) (order : Order)
    (hp : order.processed = 0 ∨ order.processed = 1) :
    fill_compatible dummy_node truck order = 0 ∨
    fill_compatible dummy_node truck order = 1 := by
  unfold fill_compatible
  have hopen : (1 - order.processed = 0 ∨ 1 - order.processed = 1) := by
    rcases hp with h | h <;> rw [h] <;> norm_num
  exact bit_mul (bit_mul (bit_mul (mpc_eq_bit _ _)
    (real_or_bit (mpc_eq_bit _ _) (mpc_eq_bit _ _))) (mpc_ge_bit _ _)) hopen

/-- When `compatible` reveals to 0 the pair is left unchanged; when it
reveals to 1 the capacity check held and all five selected updates fire. -/
theorem fill_cases (dummy_node : Int) (truck : Truck) (order : Order)
    (hp : order.processed = 0 ∨ order.processed = 1) :
    fill_truck_with_order dummy_node truck order = (truck, order) ∨
    (0 ≤ truck.capacity - order.volume ∧ order.processed = 0 ∧
     fill_truck_with_order dummy_node truck order =
       ({ truck with
            destination := order.destination
            capacity := truck.capacity - order.volume },
        { order with
            processed := 1
            process_this_round := 1
            freighter_id := truck.freighter_id })) := by
  rcases fill_compatible_bit dummy_node truck order hp with hc | hc
  · left
    unfold fill_truck_with_order
    rw [hc]
    simp [mpc_if_else_zero, real_or_zero_left]
  · right
    have hge : mpc_ge (truck.capacity - order.volume) 0 = 1 ∧
        1 - order.processed = 1 := by
      unfold fill_compatible at hc
      have hopen : (1 - order.processed = 0 ∨ 1 - order.processed = 1) := by
        rcases hp with h | h <;> rw [h] <;> norm_num
      have h3 := bit_mul_eq_one (bit_mul (bit_mul (mpc_eq_bit _ _)
        (real_or_bit (mpc_eq_bit _ _) (mpc_eq_bit _ _))) (mpc_ge_bit _ _)) hc
      have h2 := bit_mul_eq_one (bit_mul (mpc_eq_bit _ _)
        (real_or_bit (mpc_eq_bit _ _) (mpc_eq_bit _ _))) h3.1
      exact ⟨h2.2, h3.2⟩
    refine ⟨?_, ?_, ?_⟩
    · have := hge.1
      unfold mpc_ge at this
      by_contra hneg
      rw [if_neg (by omega)] at this
      norm_num at this
    · have := hge.2
      omega
    · unfold fill_truck_with_order
      rw [hc]
      simp [mpc_if_else_one, real_or_one_left]

/-- Claim C9: a single `_fill_truck_with_order` call never modifies the
order's `origin`, `destination` or `volume`, nor the truck's `position` or
`freighter_id`. -/
theorem fill_truck_with_order_frame (dummy_node : Int) (truck : Truck)
    (order : Order) :
    (fill_truck_with_order dummy_node truck order).1.position = truck.position ∧
    (fill_truck_with_order dummy_node truck order).1.freighter_id = truck.freighter_id ∧
    (fill_truck_with_order dummy_node truck order).2.origin = order.origin ∧
    (fill_truck_with_order dummy_node truck order).2.destination = order.destination ∧
    (fill_truck_with_order dummy_node truck order).2.volume = order.volume :=
  ⟨rfl, rfl, rfl, rfl, rfl⟩

/-- The evolution of one order through a sequence of
`_fill_truck_with_order` calls, one per truck in the list. -/
def fill_order_through (dummy_node : Int) (order : Order) :
    List Truck → Order
  | [] => order
  | t :: ts =>
      fill_order_through dummy_node (fill_truck_with_order dummy_node t order).2 ts

theorem fill_step_processed_bit (dummy_node : Int) (truck : Truck)
    (order : Order) (hp : order.processed = 0 ∨ order.processed = 1) :
    (fill_truck_with_order dummy_node truck order).2.processed = 0 ∨
    (fill_truck_with_order dummy_node truck order).2.processed = 1 := by
  rcases fill_cases dummy_node truck order hp with h | ⟨-, -, h⟩ <;> rw [h]
  · exact hp
  · right; rfl

/-- Claim C8: through any sequence of `_fill_truck_with_order` calls, an
order whose `freighter_id` starts at the dummy sentinel whenever
`processed = 0` keeps that invariant, its `processed` flag stays 0/1, and
once `processed` reveals to 1 the `freighter_id` never changes again. -/
theorem order_freighter_invariant (dummy_node dummy_freighter_id : Int)
    (order : Order) (ts : List Truck)
    (hp : order.processed = 0 ∨ order.processed = 1)
    (hdum : order.processed = 0 → order.freighter_id = dummy_freighter_id) :
    ((fill_order_through dummy_node order ts).processed = 0 →
      (fill_order_through dummy_node order ts).freighter_id = dummy_freighter_id) ∧
    ((fill_order_through dummy_node order ts).processed = 0 ∨
      (fill_order_through dummy_node order ts).processed = 1) ∧
    (order.processed = 1 →
      (fill_order_through dummy_node order ts).freighter_id = order.freighter_id ∧
      (fill_order_through dummy_node order ts).processed = 1) := by
  induction ts generalizing order with
  | nil => exact ⟨hdum, hp, fun h => ⟨rfl, h⟩⟩
  | cons t ts ih =>
      rcases fill_cases dummy_node t order hp with h | ⟨-, hp0, h⟩
      · have := ih order hp hdum
        rw [fill_order_through, h]
        exact this
      · rw [fill_order_through, h]
        have hrec := ih { order with
            processed := 1
            process_this_round := 1
            freighter_id := t.freighter_id }
          (Or.inr rfl) (fun hzero => by simp at hzero)
        refine ⟨hrec.1, hrec.2.1, ?_⟩
        intro hp1
        rw [hp0] at hp1
        norm_num at hp1

theorem order_freighter_invariant_witness :
    ((fill_order_through 99 (initialize_order
        ⟨1, 2, 4, 0, 0, 0⟩ 88) [⟨10, 5, 99, 7, 0⟩]).processed = 0 →
      (fill_order_through 99 (initialize_order
        ⟨1, 2, 4, 0, 0, 0⟩ 88) [⟨10, 5, 99, 7, 0⟩]).freighter_id = 88) ∧
    ((fill_order_through 99 (initialize_order
        ⟨1, 2, 4, 0, 0, 0⟩ 88) [⟨10, 5, 99, 7, 0⟩]).processed = 0 ∨
      (fill_order_through 99 (initialize_order
        ⟨1, 2, 4, 0, 0, 0⟩ 88) [⟨10, 5, 99, 7, 0⟩]).processed = 1) ∧
    ((initialize_order ⟨1, 2, 4, 0, 0, 0⟩ 88).processed = 1 →
      (fill_order_through 99 (initialize_order
        ⟨1, 2, 4, 0, 0, 0⟩ 88) [⟨10, 5, 99, 7, 0⟩]).freighter_id =
        (initialize_order ⟨1, 2, 4, 0, 0, 0⟩ 88).freighter_id ∧
      (fill_order_through 99 (initialize_order
        ⟨1, 2, 4, 0, 0, 0⟩ 88) [⟨10, 5, 99, 7, 0⟩]).processed = 1) :=
  order_freighter_invariant 99 88 (initialize_order ⟨1, 2, 4, 0, 0, 0⟩ 88)
    [⟨10, 5, 99, 7, 0⟩] (Or.inl rfl) (fun _ => rfl)

/-- Iterated complete fill rounds (`_fill_trucks` called `n` times). -/
def fill_rounds (dummy_node truck_capacity : Int) :
    Nat → List Truck × List Order → List Truck × List Order
  | 0, s => s
  | n + 1, s =>
      fill_rounds dummy_node truck_capacity n
        (fill_trucks dummy_node truck_capacity s.1 s.2)

theorem fill_trucks_capacity_reset (dummy_node truck_capacity : Int)
    (ts : List Truck) (os : List Order) :
    ∀ t ∈ (fill_trucks dummy_node truck_capacity ts os).1,
      t.capacity = truck_capacity := by
  induction ts generalizing os with
  | nil => intro t ht; simp [fill_trucks] at ht
  | cons t ts ih =>
      intro t' ht'
      rw [fill_trucks] at ht'
      rcases List.mem_cons.mp ht' with h | h
      · rw [h]; rfl
      · exact ih _ t' h

/-- Claim C7: a truck capacity that starts nonnegative stays nonnegative
after any number of complete fill rounds (with a nonnegative configured
maximum), and within a round a single `_fill_truck_with_order` update can
never drive a nonnegative capacity negative, because of the
`mpc.ge(capacity - volume, 0)` factor of `compatible`. -/
theorem capacity_nonneg_invariant (dummy_node truck_capacity : Int)
    (hcap : 0 ≤ truck_capacity) (n : Nat) (ts : List Truck) (os : List Order)
    (hts : ∀ t ∈ ts, 0 ≤ t.capacity) :
    (∀ t ∈ (fill_rounds dummy_node truck_capacity n (ts, os)).1,
      0 ≤ t.capacity) ∧
    (∀ (truck : Truck) (order : Order), 0 ≤ truck.capacity →
      (order.processed = 0 ∨ order.processed = 1) →
      0 ≤ (fill_truck_with_order dummy_node truck order).1.capacity) := by
  constructor
  · induction n generalizing ts os with
    | zero => exact hts
    | succ m ih =>
        rw [fill_rounds]
        apply ih
        intro t ht
        rw [fill_trucks_capacity_reset dummy_node truck_capacity ts os t ht]
        exact hcap
  · intro truck order hc hp
    rcases fill_cases dummy_node truck order hp with h | ⟨hge, -, h⟩ <;> rw [h]
    · exact hc
    · exact hge

theorem capacity_nonneg_invariant_witness :
    0 ≤ ((fill_rounds 99 10 1
        ([⟨10, 1, 99, 7, 0⟩], [⟨1, 2, 4, 0, 0, 88⟩])).1.getD 0
        ⟨0, 0, 0, 0, 0⟩).capacity ∧
    0 ≤ (fill_truck_with_order 99 ⟨10, 1, 99, 7, 0⟩ ⟨1, 2, 4, 0, 0, 88⟩).1.capacity :=
  ⟨(capacity_nonneg_invariant 99 10 (by norm_num) 1
      [⟨10, 1, 99, 7, 0⟩] [⟨1, 2, 4, 0, 0, 88⟩] (by decide)).1 _ (by decide),
   (capacity_nonneg_invariant 99 10 (by norm_num) 1
      [⟨10, 1, 99, 7, 0⟩] [⟨1, 2, 4, 0, 0, 88⟩] (by decide)).2
     ⟨10, 1, 99, 7, 0⟩ ⟨1, 2, 4, 0, 0, 88⟩ (by norm_num) (Or.inl rfl)⟩

/-! Scenario of claim C1, with node A revealed as 1, node B as 2, the dummy
node sentinel as 99, the dummy freighter sentinel as 88 and the truck's
freighter id as 7.  The configured maximum truck capacity is 10. -/

/-- The scenario truck: capacity 10, position A, dummy destination. -/
def scenario_truck : Truck := ⟨10, 1, 99, 7, 0⟩

/-- The scenario order: origin A, destination B, volume 4, initialized. -/
def scenario_order : Order := ⟨1, 2, 4, 0, 0, 88⟩

/-- Claim C1, counterexample: after one complete `_fill_trucks` round the
order does reveal `processed = 1` and `freighter_id = 7`, but the truck's
capacity reveals to the configured maximum 10 (not 6) and its destination
reveals to the dummy node 99 (not B), because `_fill_trucks` resets both at
the end of the truck's pass; so the claim as stated is false. -/
theorem scenario_one_round_counterexample :
    ¬ (((fill_trucks 99 10 [scenario_truck] [scenario_order]).2.getD 0
          scenario_order).processed = 1 ∧
       ((fill_trucks 99 10 [scenario_truck] [scenario_order]).2.getD 0
          scenario_order).freighter_id = 7 ∧
       ((fill_trucks 99 10 [scenario_truck] [scenario_order]).1.getD 0
          scenario_truck).capacity = 6 ∧
       ((fill_trucks 99 10 [scenario_truck] [scenario_order]).1.getD 0
          scenario_truck).destination = 2) := by
  decide

/-- Claim C1, amended: in the scenario the inner `_fill_truck_with_order`
call reveals `processed = 1`, `freighter_id = 7`, truck capacity 6 and truck
destination B; the enclosing `_fill_trucks` round keeps the order results
but resets the truck capacity to the maximum 10, advances its position to B
and resets its destination to the dummy node. -/
theorem scenario_one_round :
    ((fill_truck_with_order 99 scenario_truck scenario_order).2.processed = 1 ∧
     (fill_truck_with_order 99 scenario_truck scenario_order).2.freighter_id = 7 ∧
     (fill_truck_with_order 99 scenario_truck scenario_order).1.capacity = 6 ∧
     (fill_truck_with_order 99 scenario_truck scenario_order).1.destination = 2) ∧
    (((fill_trucks 99 10 [scenario_truck] [scenario_order]).2.getD 0
        scenario_order).processed = 1 ∧
     ((fill_trucks 99 10 [scenario_truck] [scenario_order]).2.getD 0
        scenario_order).freighter_id = 7 ∧
     ((fill_trucks 99 10 [scenario_truck] [scenario_order]).1.getD 0
        scenario_truck).capacity = 10 ∧
     ((fill_trucks 99 10 [scenario_truck] [scenario_order]).1.getD 0
        scenario_truck).position = 2 ∧
     ((fill_trucks 99 10 [scenario_truck] [scenario_order]).1.getD 0
        scenario_truck).destination = 99) := by
  decide

/-! The Repositioning Engine and the Round Controller
(`MPCSolver._create_empty_truck_drive` and `MPCSolver.solve_problem`). -/

/-- Solver configuration: the constructor arguments of `MPCSolver` together
with the map data (`map.positions` length and the route-cost matrix) that
the plaintext `Map` collaborator exposes. -/
structure Config where
  dummy_freighter_id : Int
  dummy_node : Int
  truck_capacity : Int
  num_positions : Nat
  route_matrix : List (List Int)
deriving DecidableEq

/-- The `EmptyDrive` data class of `solver.py`. -/
structure EmptyDrive where
  freighter_id : Int
  closest_position : Int
  first_unprocessed_origin : Int
deriving DecidableEq

/-- The mutable solver state of `MPCSolver`. -/
structure SolverState where
  trucks : List Truck
  orders : List Order
  empty_drives : List EmptyDrive
  num_processed_orders : Int
deriving DecidableEq

/-- `MPCSolver._locate_first_unprocessed_origin`: the first-nonzero mask of
`1 - processed`, dotted with the origins, expanded to an indicator vector
over the map positions. -/
def locate_first_unprocessed_origin (cfg : Config) (orders : List Order) :
    Int × List Int :=
  (in_prod (orders.map Order.origin)
      (find_first_non_zero (orders.map fun o => 1 - o.processed)),
   compute_indicator_vector cfg.num_positions
     (in_prod (orders.map Order.origin)
       (find_first_non_zero (orders.map fun o => 1 - o.processed))))

/-- `MPCSolver._find_truck_dist_to_order`: the oblivious table lookup
`positionVec · (RouteMatrix · targetVec)` written into `dist_to_order`. -/
def find_truck_dist_to_order (cfg : Config) (truck : Truck)
    (node_indicator_vector : List Int) : Truck :=
  { truck with
      dist_to_order :=
        in_prod (compute_indicator_vector cfg.num_positions truck.position)
          (cfg.route_matrix.map fun row => in_prod row node_indicator_vector) }

/-- `MPCSolver._find_distances_to_order`: run the lookup for every truck. -/
def find_distances_to_order (cfg : Config) (trucks : List Truck)
    (node_indicator_vector : List Int) : List Truck :=
  trucks.map fun t => find_truck_dist_to_order cfg t node_indicator_vector

/-- Semantics of `mpc.argmin`: index of the minimum entry, lowest index on
ties (the Secure-Value Adapter interface documented by the spec). -/
def argmin_index : List Int → Nat
  | [] => 0
  | [_] => 0
  | x :: y :: ys =>
      if (y :: ys).getD (argmin_index (y :: ys)) 0 < x
      then argmin_index (y :: ys) + 1 else 0

/-- The select-chain of `MPCSolver._find_truck_position` and
`_find_freighter_id`: starting from a sentinel, obliviously select the value
whose plaintext loop index matches the secret index. -/
def select_by_index_from (truck_index : Int) (i : Nat) (acc : Int) :
    List Int → Int
  | [] => acc
  | v :: vs =>
      select_by_index_from truck_index (i + 1)
        (mpc_if_else (mpc_eq (i : Int) truck_index) v acc) vs

/-- `MPCSolver._find_truck_position`. -/
def find_truck_position (trucks : List Truck) (truck_index dummy_node : Int) :
    Int :=
  select_by_index_from truck_index 0 dummy_node (trucks.map Truck.position)

/-- `MPCSolver._find_freighter_id`. -/
def find_freighter_id (trucks : List Truck)
    (truck_index dummy_freighter_id : Int) : Int :=
  select_by_index_from truck_index 0 dummy_freighter_id
    (trucks.map Truck.freighter_id)

/-- The oblivious per-truck update of `MPCSolver._move_truck`, carrying the
running plaintext loop index. -/
def move_truck_from (truck_index destination : Int) (i : Nat) :
    List Truck → List Truck
  | [] => []
  | t :: ts =>
      { t with
          position := mpc_if_else (mpc_eq (i : Int) truck_index)
            destination t.position } ::
        move_truck_from truck_index destination (i + 1) ts

/-- `MPCSolver._move_truck`. -/
def move_truck (trucks : List Truck) (truck_index destination : Int) :
    List Truck :=
  move_truck_from truck_index destination 0 trucks

/-- The trucks after `_find_distances_to_order`, inside
`_create_empty_truck_drive`. -/
def trucks_with_dist (cfg : Config) (s : SolverState) : List Truck :=
  find_distances_to_order cfg s.trucks
    (locate_first_unprocessed_origin cfg s.orders).2

/-- The argmin over the truck distances inside `_create_empty_truck_drive`. -/
def closest_truck_index (cfg : Config) (s : SolverState) : Nat :=
  argmin_index ((trucks_with_dist cfg s).map Truck.dist_to_order)

/-- The `EmptyDrive` record built by `_create_empty_truck_drive`. -/
def repositioning_drive (cfg : Config) (s : SolverState) : EmptyDrive :=
  ⟨find_freighter_id (trucks_with_dist cfg s)
      ((closest_truck_index cfg s : Nat) : Int) cfg.dummy_freighter_id,
   find_truck_position (trucks_with_dist cfg s)
     ((closest_truck_index cfg s : Nat) : Int) cfg.dummy_node,
   (locate_first_unprocessed_origin cfg s.orders).1⟩

/-- `MPCSolver._create_empty_truck_drive`: append the drive record and
obliviously move the closest truck to the first unprocessed origin. -/
def create_empty_truck_drive (cfg : Config) (s : SolverState) : SolverState :=
  { s with
      trucks := move_truck (trucks_with_dist cfg s)
        ((closest_truck_index cfg s : Nat) : Int)
        (locate_first_unprocessed_origin cfg s.orders).1
      empty_drives := s.empty_drives ++ [repositioning_drive cfg s] }

/-- The per-round fill result inside `solve_problem`. -/
def round_fill (cfg : Config) (s : SolverState) : List Truck × List Order :=
  fill_trucks cfg.dummy_node cfg.truck_capacity s.trucks s.orders

/-- The revealed per-round count `sum(order.process_this_round)` of
`solve_problem`. -/
def round_count (cfg : Config) (s : SolverState) : Int :=
  ((round_fill cfg s).2.map Order.process_this_round).sum

/-- The solver state right after `_fill_trucks` in a `solve_problem`
round. -/
def after_fill_state (cfg : Config) (s : SolverState) : SolverState :=
  { s with trucks := (round_fill cfg s).1, orders := (round_fill cfg s).2 }

/-- The state after the conditional `_create_empty_truck_drive` call of a
`solve_problem` round. -/
def round_post (cfg : Config) (s : SolverState) : SolverState :=
  if round_count cfg s = 0
  then create_empty_truck_drive cfg (after_fill_state cfg s)
  else after_fill_state cfg s

/-- One iteration of the `while` loop of `MPCSolver.solve_problem`: fill,
reveal the round count, reposition when the count is 0, reset every order's
`process_this_round`, and accumulate the processed-order counter. -/
def solve_round (cfg : Config) (s : SolverState) : SolverState :=
  { round_post cfg s with
      orders := (round_post cfg s).orders.map
        fun o => { o with process_this_round := 0 }
      num_processed_orders :=
        (round_post cfg s).num_processed_orders + round_count cfg s }

/-- The 0/1 discipline of the two order flags. -/
abbrev order_bits (o : Order) : Prop :=
  (o.processed = 0 ∨ o.processed = 1) ∧
  (o.process_this_round = 0 ∨ o.process_this_round = 1)

/-- An order whose `process_this_round` flag is still 0 after a fill pass
went through the pass unchanged. -/
abbrev stall_rel (o o' : Order) : Prop := o'.process_this_round = 0 → o' = o

theorem stall_rel_list_refl (os : List Order) :
    List.Forall₂ stall_rel os os := by
  induction os with
  | nil => exact List.Forall₂.nil
  | cons o os ih => exact List.Forall₂.cons (fun _ => rfl) ih

theorem stall_rel_comp {l1 l2 l3 : List Order}
    (h12 : List.Forall₂ stall_rel l1 l2) (h23 : List.Forall₂ stall_rel l2 l3) :
    List.Forall₂ stall_rel l1 l3 := by
  induction h12 generalizing l3 with
  | nil => cases h23; exact List.Forall₂.nil
  | cons h hs ih =>
      cases h23 with
      | cons h' hs' =>
          refine List.Forall₂.cons ?_ (ih hs')
          intro hz
          have hcb := h' hz
          rw [hcb] at hz ⊢
          exact h hz

theorem fill_truck_orders_stall (d : Int) (os : List Order) :
    ∀ t : Truck, (∀ o ∈ os, order_bits o) →
    List.Forall₂ stall_rel os (fill_truck_orders d t os).2 ∧
    (∀ o' ∈ (fill_truck_orders d t os).2, order_bits o') := by
  induction os with
  | nil =>
      intro t _
      exact ⟨List.Forall₂.nil, by intro o' h; simp [fill_truck_orders] at h⟩
  | cons o os ih =>
      intro t hb
      have hbo := hb o (List.mem_cons_self o os)
      have hbos : ∀ x ∈ os, order_bits x := fun x hx =>
        hb x (List.mem_cons_of_mem o hx)
      have hrec := ih (fill_truck_with_order d t o).1 hbos
      have hshape : (fill_truck_orders d t (o :: os)).2 =
          (fill_truck_with_order d t o).2 ::
            (fill_truck_orders d (fill_truck_with_order d t o).1 os).2 := rfl
      rw [hshape]
      refine ⟨List.Forall₂.cons ?_ hrec.1, ?_⟩
      · rcases fill_cases d t o hbo.1 with h | ⟨-, -, h⟩
        · rw [h]; exact fun _ => rfl
        · rw [h]; intro hz; simp at hz
      · intro o' ho'
        rcases List.mem_cons.mp ho' with h | h
        · rw [h]
          rcases fill_cases d t o hbo.1 with hcase | ⟨-, -, hcase⟩
          · rw [hcase]; exact hbo
          · rw [hcase]; exact ⟨Or.inr rfl, Or.inr rfl⟩
        · exact hrec.2 o' h

theorem fill_trucks_stall (d c : Int) (ts : List Truck) :
    ∀ os : List Order, (∀ o ∈ os, order_bits o) →
    List.Forall₂ stall_rel os (fill_trucks d c ts os).2 ∧
    (∀ o' ∈ (fill_trucks d c ts os).2, order_bits o') := by
  induction ts with
  | nil => intro os hb; exact ⟨stall_rel_list_refl os, hb⟩
  | cons t ts ih =>
      intro os hb
      have hpass := fill_truck_orders_stall d os t hb
      have hrest := ih (fill_truck_orders d t os).2 hpass.2
      have hshape : (fill_trucks d c (t :: ts) os).2 =
          (fill_trucks d c ts (fill_truck_orders d t os).2).2 := rfl
      rw [hshape]
      exact ⟨stall_rel_comp hpass.1 hrest.1, hrest.2⟩

theorem stall_eq_of_ptr_zero {os os' : List Order}
    (h : List.Forall₂ stall_rel os os')
    (hz : ∀ o' ∈ os', o'.process_this_round = 0) : os' = os := by
  induction h with
  | nil => rfl
  | @cons a b l1 l2 hr hrest ih =>
      have hb := hr (hz b (List.mem_cons_self b l2))
      have hl := ih fun o' ho' => hz o' (List.mem_cons_of_mem b ho')
      rw [hb, hl]

theorem bits_sum_nonneg (l : List Int) (hb : ∀ x ∈ l, x = 0 ∨ x = 1) :
    0 ≤ l.sum := by
  induction l with
  | nil => simp
  | cons x xs ih =>
      have hx := hb x (List.mem_cons_self x xs)
      have hxs := ih fun y hy => hb y (List.mem_cons_of_mem x hy)
      rw [List.sum_cons]
      rcases hx with h | h <;> rw [h] <;> omega

theorem bits_sum_zero (l : List Int) (hb : ∀ x ∈ l, x = 0 ∨ x = 1)
    (h : l.sum = 0) : ∀ x ∈ l, x = 0 := by
  induction l with
  | nil => intro x hx; simp at hx
  | cons y ys ih =>
      intro x hx
      rw [List.sum_cons] at h
      have hy := hb y (List.mem_cons_self y ys)
      have hbys : ∀ z ∈ ys, z = 0 ∨ z = 1 := fun z hz =>
        hb z (List.mem_cons_of_mem y hz)
      have hsum := bits_sum_nonneg ys hbys
      have hy0 : y = 0 := by rcases hy with h' | h' <;> omega
      rcases List.mem_cons.mp hx with h' | h'
      · rw [h']; exact hy0
      · exact ih hbys (by omega) x h'

theorem in_prod_cons (x y : Int) (xs ys : List Int) :
    in_prod (x :: xs) (y :: ys) = x * y + in_prod xs ys := by
  simp [in_prod]

theorem in_prod_replicate_zero (xs : List Int) (n : Nat) :
    in_prod xs (List.replicate n 0) = 0 := by
  induction xs generalizing n with
  | nil => simp [in_prod]
  | cons x xs ih =>
      cases n with
      | zero => simp [in_prod]
      | succ m =>
          rw [List.replicate_succ, in_prod_cons, ih m]
          ring

/-- The dot product of the origins with the first-nonzero mask of
`1 - processed` reveals to the origin of the first unprocessed order. -/
theorem in_prod_first_unprocessed (os : List Order)
    (hb : ∀ o ∈ os, o.processed = 0 ∨ o.processed = 1)
    (hex : ∃ o ∈ os, o.processed = 0) :
    some (in_prod (os.map Order.origin)
        (find_first_non_zero (os.map fun o => 1 - o.processed))) =
      (os.find? fun o => o.processed == 0).map Order.origin := by
  induction os with
  | nil => simp at hex
  | cons o os ih =>
      rcases hb o (List.mem_cons_self o os) with hp | hp
      · have h1 : (1 : Int) - o.processed = 1 := by rw [hp]; norm_num
        rw [List.map_cons, List.map_cons, h1, find_first_non_zero_cons,
          find_first_non_zero_aux_one, in_prod_cons, in_prod_replicate_zero,
          List.find?_cons_of_pos _ (by simp [hp])]
        simp
      · have h0 : (1 : Int) - o.processed = 0 := by rw [hp]; norm_num
        have hbos : ∀ x ∈ os, x.processed = 0 ∨ x.processed = 1 := fun x hx =>
          hb x (List.mem_cons_of_mem o hx)
        have hexos : ∃ x ∈ os, x.processed = 0 := by
          rcases hex with ⟨w, hw, hw0⟩
          rcases List.mem_cons.mp hw with h' | h'
          · rw [h'] at hw0; rw [hw0] at hp; norm_num at hp
          · exact ⟨w, h', hw0⟩
        rw [List.map_cons, List.map_cons, h0, find_first_non_zero_cons,
          show find_first_non_zero_aux 0 (os.map fun o => 1 - o.processed) =
            find_first_non_zero (os.map fun o => 1 - o.processed) from rfl,
          in_prod_cons, List.find?_cons_of_neg _ (by simp [hp])]
        rw [show Order.origin o * 0 + in_prod (os.map Order.origin)
            (find_first_non_zero (os.map fun o => 1 - o.processed)) =
            in_prod (os.map Order.origin)
              (find_first_non_zero (os.map fun o => 1 - o.processed)) from by ring]
        exact ih hbos hexos

theorem fill_trucks_trucks_length (d c : Int) (ts : List Truck) :
    ∀ os, (fill_trucks d c ts os).1.length = ts.length := by
  induction ts with
  | nil => intro os; rfl
  | cons t ts ih =>
      intro os
      have hshape : (fill_trucks d c (t :: ts) os).1 =
          finish_truck d c (fill_truck_orders d t os).1 ::
            (fill_trucks d c ts (fill_truck_orders d t os).2).1 := rfl
      rw [hshape, List.length_cons, ih]
      rfl

theorem move_truck_from_getD (idx dest : Int) (i k : Nat) (ts : List Truck)
    (dt : Truck) (hk : k < ts.length) :
    (move_truck_from idx dest i ts).getD k dt =
      { ts.getD k dt with
          position := mpc_if_else (mpc_eq ((i + k : Nat) : Int) idx) dest
            (ts.getD k dt).position } := by
  induction ts generalizing i k with
  | nil => simp at hk
  | cons t ts ih =>
      cases k with
      | zero => simp [move_truck_from]
      | succ k' =>
          rw [move_truck_from, List.getD_cons_succ, List.getD_cons_succ,
            ih (i + 1) k' (by simpa using hk)]
          have harith : (i + 1) + k' = i + (k' + 1) := by omega
          rw [harith]

theorem move_truck_getD_self (ts : List Truck) (k : Nat) (dest : Int)
    (dt : Truck) (hk : k < ts.length) :
    ((move_truck ts ((k : Nat) : Int) dest).getD k dt).position = dest := by
  unfold move_truck
  rw [move_truck_from_getD ((k : Nat) : Int) dest 0 k ts dt hk]
  simp [mpc_eq, mpc_if_else]

theorem argmin_index_lt (l : List Int) (h : l ≠ []) :
    argmin_index l < l.length := by
  induction l with
  | nil => exact absurd rfl h
  | cons x xs ih =>
      cases xs with
      | nil => simp [argmin_index]
      | cons y ys =>
          rw [argmin_index]
          split
          · have hlt := ih (by simp)
            simp only [List.length_cons] at hlt ⊢
            omega
          · simp

/-- Claim C3: in a `solve_problem` round whose revealed
`process_this_round` count is 0, exactly one `EmptyDrive` is appended
before the next round, and the relocated (closest) truck's position
thereafter reveals to the origin of the first unprocessed order; in a round
with a nonzero revealed count, no `EmptyDrive` is appended. -/
theorem empty_drive_per_stalled_round (cfg : Config) (s : SolverState)
    (htrucks : s.trucks ≠ [])
    (hbits : ∀ o ∈ s.orders, order_bits o)
    (hex : ∃ o ∈ s.orders, o.processed = 0) :
    (round_count cfg s = 0 →
      (solve_round cfg s).empty_drives =
        s.empty_drives ++ [repositioning_drive cfg (after_fill_state cfg s)] ∧
      ((solve_round cfg s).trucks.getD
          (closest_truck_index cfg (after_fill_state cfg s))
          ⟨0, 0, 0, 0, 0⟩).position =
        (locate_first_unprocessed_origin cfg (round_fill cfg s).2).1 ∧
      some ((locate_first_unprocessed_origin cfg (round_fill cfg s).2).1) =
        ((round_fill cfg s).2.find? fun o => o.processed == 0).map
          Order.origin) ∧
    (round_count cfg s ≠ 0 →
      (solve_round cfg s).empty_drives = s.empty_drives) := by
  have hstall := fill_trucks_stall cfg.dummy_node cfg.truck_capacity s.trucks
    s.orders hbits
  constructor
  · intro hcnt
    have hpost : round_post cfg s =
        create_empty_truck_drive cfg (after_fill_state cfg s) := by
      rw [round_post, if_pos hcnt]
    refine ⟨?_, ?_, ?_⟩
    · have h1 : (solve_round cfg s).empty_drives =
          (round_post cfg s).empty_drives := rfl
      rw [h1, hpost]
      rfl
    · have h2 : (solve_round cfg s).trucks = (round_post cfg s).trucks := rfl
      rw [h2, hpost]
      have h3 : (create_empty_truck_drive cfg (after_fill_state cfg s)).trucks =
          move_truck (trucks_with_dist cfg (after_fill_state cfg s))
            ((closest_truck_index cfg (after_fill_state cfg s) : Nat) : Int)
            (locate_first_unprocessed_origin cfg (round_fill cfg s).2).1 := rfl
      rw [h3]
      have hlen : (trucks_with_dist cfg (after_fill_state cfg s)).length =
          s.trucks.length := by
        have h4 : (trucks_with_dist cfg (after_fill_state cfg s)).length =
            (round_fill cfg s).1.length := List.length_map _ _
        rw [h4]
        exact fill_trucks_trucks_length cfg.dummy_node cfg.truck_capacity
          s.trucks s.orders
      have hpos : 0 < s.trucks.length := List.length_pos.mpr htrucks
      have hklt : closest_truck_index cfg (after_fill_state cfg s) <
          (trucks_with_dist cfg (after_fill_state cfg s)).length := by
        have hne : ((trucks_with_dist cfg (after_fill_state cfg s)).map
            Truck.dist_to_order) ≠ [] := by
          intro hnil
          have hlen0 := congrArg List.length hnil
          rw [List.length_map, hlen] at hlen0
          simp only [List.length_nil] at hlen0
          omega
        have := argmin_index_lt _ hne
        rwa [List.length_map] at this
      exact move_truck_getD_self _ _ _ _ hklt
    · have hbits1 : ∀ o ∈ (round_fill cfg s).2, order_bits o := hstall.2
      have hptr_all : ∀ o ∈ (round_fill cfg s).2, o.process_this_round = 0 := by
        intro o ho
        have hmem : o.process_this_round ∈
            (round_fill cfg s).2.map Order.process_this_round :=
          List.mem_map.mpr ⟨o, ho, rfl⟩
        refine bits_sum_zero _ ?_ hcnt _ hmem
        intro x hx
        rcases List.mem_map.mp hx with ⟨o', ho', rfl⟩
        exact (hbits1 o' ho').2
      have heq : (round_fill cfg s).2 = s.orders :=
        stall_eq_of_ptr_zero hstall.1 hptr_all
      have hex1 : ∃ o ∈ (round_fill cfg s).2, o.processed = 0 := by
        rw [heq]; exact hex
      exact in_prod_first_unprocessed (round_fill cfg s).2
        (fun o ho => (hbits1 o ho).1) hex1
  · intro hcnt
    have h1 : (solve_round cfg s).empty_drives =
        (round_post cfg s).empty_drives := rfl
    rw [h1, round_post, if_neg hcnt]
    rfl

/-- A concrete one-truck, one-order problem that stalls in its first round:
the truck sits at node 0 while the only order originates at node 1. -/
def witness_config : Config := ⟨88, 99, 10, 3, [[0, 1, 2], [1, 0, 1], [2, 1, 0]]⟩

/-- The state of the stalled witness scenario. -/
def witness_state : SolverState :=
  ⟨[⟨10, 0, 99, 7, 0⟩], [⟨1, 2, 4, 0, 0, 88⟩], [], 0⟩

theorem empty_drive_per_stalled_round_witness :
    (solve_round witness_config witness_state).empty_drives =
      witness_state.empty_drives ++
        [repositioning_drive witness_config
          (after_fill_state witness_config witness_state)] :=
  ((empty_drive_per_stalled_round witness_config witness_state (by decide)
    (by decide) (by decide)).1 (by decide)).1

/-! The final reveal phase of `MPCSolver.solve_problem`
(`solver.py` lines 338-361), modelled as the sequence of `mpc.output`
events it issues with their receiver sets. -/

/-- Receiver set of one `mpc.output` call: `mpc.output(x)` reveals to all
parties, `mpc.output(x, receivers=i)` reveals to party `i` only. -/
inductive Receivers where
  | all : Receivers
  | party : Nat → Receivers
deriving DecidableEq

/-- Which secret field a final reveal event discloses. -/
inductive RevealedField where
  | order_freighter_id : RevealedField
  | order_origin : RevealedField
  | order_destination : RevealedField
  | order_volume : RevealedField
  | drive_freighter_id : RevealedField
  | drive_closest_position : RevealedField
  | drive_first_unprocessed_origin : RevealedField
deriving DecidableEq

/-- The reveal events issued for the order at index `i`: the freighter id to
all parties, then origin, destination and volume with `receivers=0`, then
the same three fields again to all parties through the debug logging
(`self.logger.debug(..., await mpc.output(...))`, marked "Test only!"). -/
def order_reveal_events (i : Nat) : List (Nat × RevealedField × Receivers) :=
  [(i, RevealedField.order_freighter_id, Receivers.all),
   (i, RevealedField.order_origin, Receivers.party 0),
   (i, RevealedField.order_destination, Receivers.party 0),
   (i, RevealedField.order_volume, Receivers.party 0),
   (i, RevealedField.order_origin, Receivers.all),
   (i, RevealedField.order_destination, Receivers.all),
   (i, RevealedField.order_volume, Receivers.all)]

/-- The reveal events issued for the empty drive at index `i`: freighter id
to all, closest position and first unprocessed origin with `receivers=0`,
then both again to all parties through the debug logging. -/
def drive_reveal_events (i : Nat) : List (Nat × RevealedField × Receivers) :=
  [(i, RevealedField.drive_freighter_id, Receivers.all),
   (i, RevealedField.drive_closest_position, Receivers.party 0),
   (i, RevealedField.drive_first_unprocessed_origin, Receivers.party 0),
   (i, RevealedField.drive_closest_position, Receivers.all),
   (i, RevealedField.drive_first_unprocessed_origin, Receivers.all)]

/-- The full reveal trace of the termination phase of `solve_problem`, for
`num_orders` orders followed by `num_drives` empty drives. -/
def final_reveal_trace (num_orders num_drives : Nat) :
    List (Nat × RevealedField × Receivers) :=
  ((List.range num_orders).map order_reveal_events).flatten ++
    ((List.range num_drives).map drive_reveal_events).flatten

/-- Claim C2, code behaviour at the failing input: with a single order and a
single empty drive, the termination phase reveals the order's origin,
destination and volume and the drive's closest position and first
unprocessed origin to all parties (via the debug outputs), and addresses
the owner-restricted outputs to the fixed party 0 rather than to the
owning party — so a non-owning party does receive the per-order and
per-drive fields, contrary to the claim. -/
theorem final_reveal_leaks_to_all :
    (0, RevealedField.order_origin, Receivers.all) ∈ final_reveal_trace 1 1 ∧
    (0, RevealedField.order_destination, Receivers.all) ∈ final_reveal_trace 1 1 ∧
    (0, RevealedField.order_volume, Receivers.all) ∈ final_reveal_trace 1 1 ∧
    (0, RevealedField.drive_closest_position, Receivers.all) ∈
      final_reveal_trace 1 1 ∧
    (0, RevealedField.drive_first_unprocessed_origin, Receivers.all) ∈
      final_reveal_trace 1 1 ∧
    (∀ e ∈ final_reveal_trace 1 1, e.2.2 = Receivers.all ∨
      e.2.2 = Receivers.party 0) := by
  decide

end Mupol
